import Mathlib

/-!
Verification of the repository-listing / release-resolution pipeline of the
simple_vcs_pypi service (modules `gh_pypi/github.py` and
`gh_pypi/application.py`), as a shallow embedding in Lean 4.

Modelling conventions:
  * Python machine state is passed explicitly; fallible Python code returns
    `Except PyError`.  Exceptions of the werkzeug HTTP taxonomy are the
    `PyError.http` constructor; exceptions that the application never catches
    (`KeyError`, `TypeError`, raw `github3` exceptions) get constructors of
    their own, since `WsgiApplication.__call__` catches only
    `werkzeug.exceptions.HTTPException`.
  * Python dicts are association lists with Python insertion semantics:
    inserting an existing key overwrites the value in place (the key keeps its
    original position), a fresh key is appended.  `pyDictInsert` below is that
    operation; `pyDictBuild` is dict construction from an iterable of pairs.
  * `sorted(xs, key=f)` is Python's stable ascending sort; a stable sort for a
    total preorder is extensionally unique, so it is embedded as Mathlib's
    (stable) `List.insertionSort` with the corresponding total relation.
  * upstream API objects (`github3` repositories, releases, assets) are plain
    records; an API listing call is a field of the record, and the network
    layer is an explicit environment `ApiEnv` of the outcomes of its calls.
-/

/-- A downloadable artifact of a release (`github3` asset). -/
structure Asset where
  name : String
  download_url : String
deriving DecidableEq

/-- A tagged release of a repository (`github3` release).  `created_at` is the
creation timestamp, abstracted to a natural number. -/
structure Release where
  tag_name : String
  name : String
  created_at : Nat
  assets : List Asset
deriving DecidableEq

/-- An upstream repository handle (`github3` ShortRepository): short name,
full name (owner/name), owner login, privacy flag, web URL, and its list of
releases (the outcome of the `releases()` listing call on this handle). -/
structure Repo where
  name : String
  full_name : String
  owner_login : String
  is_private : Bool
  html_url : String
  releases : List Release
deriving DecidableEq

/-- The werkzeug HTTP-exception taxonomy used by the application.
`conflictingRepositories` is `ConflictingRepositoriesError` (a
`ServiceUnavailable` subclass) carrying the conflict groups. -/
inductive HttpError where
  | unauthorized (www_authenticate : String)
  | forbidden
  | notFound (description : Option String)
  | badRequest (description : String)
  | conflictingRepositories (conflicts : List (String × List Repo))
  | notImplementedError
deriving DecidableEq

/-- Errors escaping a pipeline stage: werkzeug HTTP exceptions (caught by
`__call__`), or Python exceptions nothing in the application catches. -/
inductive PyError where
  | http (e : HttpError)
  | rawGitHub (message : String)
  | typeError (message : String)
  | keyError (key : String)
deriving DecidableEq

/-- The per-request credential extracted from the Basic-Auth header
(`WsgiApplication._auth`): either username+password or a bare token. -/
inductive Auth where
  | userPass (username password : String)
  | token (value : String)
deriving DecidableEq

/-- Python `dict.get`-style lookup on an association list: value of the first
pair whose key matches. -/
def pyDictGet [BEq κ] (k : κ) (d : List (κ × α)) : Option α :=
  (d.find? (fun p => p.1 == k)).map (fun p => p.2)

/-- Python `key in dict` test. -/
def pyDictHasKey [BEq κ] (k : κ) (d : List (κ × α)) : Bool :=
  d.any (fun p => p.1 == k)

/-- Python `dict[k] = v`: overwrite in place if the key exists, else append. -/
def pyDictInsert [BEq κ] (d : List (κ × α)) (k : κ) (v : α) : List (κ × α) :=
  if pyDictHasKey k d then d.map (fun p => if p.1 == k then (p.1, v) else p)
  else d ++ [(k, v)]

/-- Python dict construction from an iterable of key/value pairs (later pairs
with a duplicate key overwrite the value, the key keeps its first position). -/
def pyDictBuild [BEq κ] (l : List (κ × α)) : List (κ × α) :=
  l.foldl (fun d p => pyDictInsert d p.1 p.2) []

/-- Python `del dict[k]` / `cache.delete(k)`: drop every pair with this key. -/
def pyDictDelete [BEq κ] (d : List (κ × α)) (k : κ) : List (κ × α) :=
  d.filter (fun p => !(p.1 == k))

/-- Value that a Python dict built from `l` holds at key `k`: the value of the
last pair of `l` with that key (recursive helper used to reason about
`pyDictBuild`). -/
def lastVal? [BEq κ] (k : κ) : List (κ × α) → Option α
  | [] => none
  | p :: rest =>
    match lastVal? k rest with
    | some v => some v
    | none => if p.1 == k then some p.2 else none

/-- Python `sep.join(parts)`. -/
def pyJoin (sep : String) : List String → String
  | [] => ""
  | [x] => x
  | x :: y :: rest => x ++ sep ++ pyJoin sep (y :: rest)

/-- Python `s.replace(chr1, chr2)` for single-character arguments, used by the
release resolver as `key.replace(chr1, chr2)` with underscore and hyphen. -/
def replaceUnderscores (s : String) : String :=
  String.mk (s.data.map (fun c => if c == '_' then '-' else c))

/-- Python `s.strip()`: whitespace removed from both ends. -/
def pyStrip (s : String) : String :=
  String.mk (((s.data.dropWhile Char.isWhitespace).reverse.dropWhile
    Char.isWhitespace).reverse)

/-- Python `s.lower()` (ASCII case folding, which covers repository names). -/
def pyLower (s : String) : String :=
  String.mk (s.data.map Char.toLower)

/-- Python `s.rstrip(chr)` for the slash character. -/
def stripTrailingSlashes (s : String) : String :=
  String.mk ((s.data.reverse.dropWhile (fun c => c == '/')).reverse)

/-- Bool test that `needle` occurs contiguously inside `haystack`, the
semantics of Python's `needle in haystack` on bytes/str. -/
def listHasSub [BEq α] : List α → List α → Bool
  | [], needle => needle.isEmpty
  | a :: t, needle => needle.isPrefixOf (a :: t) || listHasSub t needle

/-- Python `needle in haystack` on strings. -/
def strContains (haystack needle : String) : Bool :=
  listHasSub haystack.data needle.data

/-- Substring relation used to state that an error message mentions a name:
some text before and some text after decompose the haystack around it. -/
def strOccursIn (needle haystack : String) : Prop :=
  ∃ u v : List Char, u ++ needle.data ++ v = haystack.data

/-- Python `<=` on strings: lexicographic comparison by code points. -/
def listLexLe : List Char → List Char → Bool
  | [], _ => true
  | _ :: _, [] => false
  | a :: at_, b :: bt =>
    if a.toNat < b.toNat then true
    else if b.toNat < a.toNat then false
    else listLexLe at_ bt

/-- The two-variant identity sum type of `gh_pypi/github.py`: the namedtuples
`Organization(name)` and `User(name)`. -/
inductive UserOrOrg where
  | organization (name : String)
  | user (name : String)
deriving DecidableEq

/-- Name field shared by both namedtuples. -/
def UserOrOrg.name : UserOrOrg → String
  | .organization n => n
  | .user n => n

/-- Python equality of the two namedtuples: namedtuples compare as plain
tuples, so `Organization(n) == User(n)` is True — only the name matters. -/
def UserOrOrg.pyEq (a b : UserOrOrg) : Bool :=
  a.name == b.name

/-- One element of a `search_code` result page: it exposes the repository the
matching file lives in. -/
structure CodeSearchResult where
  repository : Repo

/-- Outcomes of the upstream `github3` API calls made during one request.
`me` is `github_api.me()` (error = `AuthenticationFailed`, `ok none` = null
user); `organizations` are the current user's organization logins;
`all_repositories` is `github_api.repositories(type=all)`; `code_search` maps
a query string to the outcome of `github_api.search_code(query)`; `fetch`
maps an asset URL to the status code and body of the proxied download. -/
structure ApiEnv where
  me : Except String (Option String)
  organizations : List String
  all_repositories : List Repo
  code_search : String → Except String (List CodeSearchResult)
  fetch : String → Nat × String

/-- Search query built by `get_current_user_package_repositories`. -/
def searchQueryCurrentUser (repositories : List Repo) : String :=
  pyJoin " " (["filename:setup.py", "path:/"] ++
    repositories.map (fun r => "repo:" ++ r.full_name))

/-- Search query built by `get_user_package_repositories`. -/
def searchQueryUser (username : String) : String :=
  pyJoin " " ["filename:setup.py", "path:/", "user:" ++ username]

/-- Search query built by `get_organization_package_repositories`. -/
def searchQueryOrg (organization : String) : String :=
  pyJoin " " ["filename:setup.py", "path:/", "org:" ++ organization]

/-- Deduplication loop of `get_current_user_package_repositories`: a dict
keyed by full name, keeping the first occurrence, values in insertion order. -/
def dedupByFullName (results : List CodeSearchResult) : List Repo :=
  (results.map (fun r => r.repository)).foldl
    (fun acc r =>
      if acc.any (fun x => x.full_name == r.full_name) then acc else acc ++ [r])
    []

/-- `GitHub.get_current_user_package_repositories`: list every repository the
authenticated identity can see, then one batched `search_code` query for the
marker file over all of them, deduplicated by full name.  Note there is no
try/except here: an upstream `GitHubException` from the search propagates raw
(`PyError.rawGitHub`). -/
def get_current_user_package_repositories (env : ApiEnv) :
    Except PyError (List Repo) :=
  match env.code_search (searchQueryCurrentUser env.all_repositories) with
  | .error e => .error (.rawGitHub e)
  | .ok results => .ok (dedupByFullName results)

/-- `GitHub.get_user_package_repositories`: per-user marker-file search; an
upstream `GitHubException` is caught and translated to `BadRequest`; results
are filtered to exact owner-login matches. -/
def get_user_package_repositories (env : ApiEnv) (username : String) :
    Except PyError (List Repo) :=
  match env.code_search (searchQueryUser username) with
  | .error _ =>
    .error (.http (.badRequest "Unable to get list of repositories from GitHub API"))
  | .ok results =>
    .ok ((results.map (fun r => r.repository)).filter
      (fun repo => repo.owner_login == username))

/-- `GitHub.get_organization_package_repositories`: same as the user variant
with an org-scoped query. -/
def get_organization_package_repositories (env : ApiEnv) (organization : String) :
    Except PyError (List Repo) :=
  match env.code_search (searchQueryOrg organization) with
  | .error _ =>
    .error (.http (.badRequest "Unable to get list of repositories from GitHub API"))
  | .ok results =>
    .ok ((results.map (fun r => r.repository)).filter
      (fun repo => repo.owner_login == organization))

/-- Grouping step of `GitHub._verify_conflicting_repos`: a defaultdict(list)
keyed by short name, appending each repository to its group. -/
def addToChecker (checker : List (String × List Repo)) (repo : Repo) :
    List (String × List Repo) :=
  if checker.any (fun p => p.1 == repo.name) then
    checker.map (fun p => if p.1 == repo.name then (p.1, p.2 ++ [repo]) else p)
  else checker ++ [(repo.name, [repo])]

/-- The full checker dict of `_verify_conflicting_repos`. -/
def buildChecker (repositories : List Repo) : List (String × List Repo) :=
  repositories.foldl addToChecker []

/-- The conflict set computed by `_verify_conflicting_repos`: the checker
entries whose group has more than one repository. -/
def conflictsOf (repositories : List Repo) : List (String × List Repo) :=
  (buildChecker repositories).filter (fun p => 1 < p.2.length)

/-- One line of `ConflictingRepositoriesError.get_description`. -/
def conflict_line (p : String × List Repo) : String :=
  "- \"" ++ p.1 ++ "\" in: " ++ pyJoin ", " (p.2.map (fun r => r.full_name)) ++ "\n"

/-- The description text `ConflictingRepositoriesError.get_description`
assigns to `self.description` (the surrounding `div` wrapper and werkzeug's
own HTML framing are the external HTTP collaborator). -/
def conflicting_description (conflicts : List (String × List Repo)) : String :=
  "Duplicated repository names found:\n" ++ pyJoin "" (conflicts.map conflict_line)

/-- The accessible identity set of `get_installable_repositories`: the current
user plus the organizations the current user belongs to. -/
def accessibleIdentities (env : ApiEnv) (login : String) : List UserOrOrg :=
  .user login :: env.organizations.map .organization

/-- The public-only listing loop of `get_installable_repositories` over the
configured identities that are not in the accessible set (in order, results
concatenated, first upstream failure aborts the request). -/
def listNonAccessible (env : ApiEnv) : List UserOrOrg → Except PyError (List Repo)
  | [] => .ok []
  | owner :: rest =>
    match (match owner with
           | .organization n => get_organization_package_repositories env n
           | .user n => get_user_package_repositories env n) with
    | .error e => .error e
    | .ok head =>
      match listNonAccessible env rest with
      | .error e => .error e
      | .ok tail => .ok (head ++ tail)

/-- Lines 49-63 of `get_installable_repositories`: the resolved repository
listing before conflict checking — privileged current-user results followed by
the public-only results of configured identities outside the accessible set
(membership tested with namedtuple equality). -/
def resolve_listing (env : ApiEnv) (login : String)
    (users_and_organizations : List UserOrOrg) : Except PyError (List Repo) :=
  match get_current_user_package_repositories env with
  | .error e => .error e
  | .ok current =>
    match listNonAccessible env
        (users_and_organizations.filter
          (fun owner =>
            !((accessibleIdentities env login).any (fun a => a.pyEq owner)))) with
    | .error e => .error e
    | .ok others => .ok (current ++ others)

/-- Case-insensitive ordering on repositories used by the final
`sorted(result, key=lambda item: item.name.lower())`. -/
def repoLe (a b : Repo) : Prop :=
  listLexLe (pyLower a.name).data (pyLower b.name).data = true

instance : DecidableRel repoLe := fun a b => by
  unfold repoLe; infer_instance

/-- `GitHub.get_installable_repositories`: resolve the listing, fail on any
duplicated short name, otherwise build the ordered mapping from the
case-insensitively sorted repositories. -/
def get_installable_repositories (env : ApiEnv) (login : String)
    (users_and_organizations : List UserOrOrg) :
    Except PyError (List (String × Repo)) :=
  match resolve_listing env login users_and_organizations with
  | .error e => .error e
  | .ok result =>
    match conflictsOf result with
    | [] =>
      .ok (pyDictBuild ((result.insertionSort repoLe).map (fun r => (r.name, r))))
    | c :: cs => .error (.http (.conflictingRepositories (c :: cs)))

/-- Fixed asset filename convention of `gh_pypi/application.py`. -/
def ASSET_FILENAME : String := "pypi.tar.gz"

/-- Fixed cache key of `gh_pypi/application.py`. -/
def CACHE_KEY : String := "repositories"

/-- Ordering used by `sorted(repository.releases(), key=lambda item: item.created_at)`. -/
def releaseLe (a b : Release) : Prop := a.created_at ≤ b.created_at

instance : DecidableRel releaseLe := fun a b => by
  unfold releaseLe; infer_instance

/-- Tail of `WsgiApplication._get_releases`: releases sorted ascending by
creation timestamp, then collected into an OrderedDict keyed by tag name
(a later duplicate tag overwrites the value at the first occurrence's
position, exactly Python dict construction). -/
def releasesDict (releases : List Release) : List (String × Release) :=
  pyDictBuild ((releases.insertionSort releaseLe).map (fun r => (r.tag_name, r)))

/-- Alias dict built at the head of `_get_releases`: for every stored mapping
entry, both the stored short name and its underscore-to-hyphen variant are
inserted (in that order, per item). -/
def repositoriesWithAliases (repositories : List (String × Repo)) :
    List (String × Repo) :=
  repositories.foldl
    (fun acc p =>
      pyDictInsert (pyDictInsert acc p.1 p.2) (replaceUnderscores p.1) p.2)
    []

/-- `WsgiApplication._get_releases`: resolve the repository through the alias
dict (a `KeyError` is caught and re-raised as `NotFound`), then produce the
ordered release mapping, with `None` standing for an empty one. -/
def get_releases (repositories : List (String × Repo)) (repository_name : String) :
    Except PyError (Option (List (String × Release))) :=
  match pyDictGet repository_name (repositoriesWithAliases repositories) with
  | none => .error (.http (.notFound none))
  | some repository =>
    let repo_releases := releasesDict repository.releases
    .ok (if repo_releases.isEmpty then none else some repo_releases)

/-- URL built for the `repository` endpoint by `_request_urls.build`. -/
def urlRepository (repository_name : String) : String :=
  "/" ++ repository_name ++ "/"

/-- URL built for the `download` endpoint by `_request_urls.build`. -/
def urlDownload (repository_name release_name : String) : String :=
  "/" ++ repository_name ++ "/release/" ++ release_name ++ ".tar.gz"

/-- The anchor-tag line rendered for each link by the dispatchers. -/
def aLink (href text : String) : String :=
  "<a href=\"" ++ href ++ "\">" ++ text ++ "</a>"

/-- `WsgiApplication._get_repo_releases_links`: `None` when the repository has
no releases, otherwise the (url, tag name) pair per release tag. -/
def get_repo_releases_links (domain : String)
    (repositories : List (String × Repo)) (repository_name : String) :
    Except PyError (Option (List (String × String))) :=
  match get_releases repositories repository_name with
  | .error e => .error e
  | .ok none => .ok none
  | .ok (some repo_releases) =>
    .ok (some (repo_releases.map
      (fun p => (domain ++ urlDownload repository_name p.1, p.1))))

/-- Text of `templates.INDEX` before the `links` substitution point, with
Python percent-escapes resolved. -/
def INDEX_HEAD : String :=
  "\n<!doctype html>\n<html>\n    <head>\n        <title>Simple index</title>\n        <style>\n        html, body, a \x7b margin: 0; padding: 0; border: 0; font-size: 100%; font: inherit; vertical-align: baseline; \x7d\n        body \x7b line-height: 1; margin: .5rem\x7d\n        a \x7b display: block; padding: .5rem 1rem; border: 1px solid #ccc; margin: .5rem; \x7d\n        a:hover \x7b background: #eee; \x7d\n        </style>\n    </head>\n    <body>\n        "

/-- Shared tail of both templates after the `links` substitution point. -/
def TEMPLATE_TAIL : String := "\n    </body>\n</html>\n"

/-- Percent-formatting of `templates.INDEX`. -/
def renderIndex (links : String) : String :=
  INDEX_HEAD ++ links ++ TEMPLATE_TAIL

/-- Text of `templates.REPOSITORY` before the `repository_name` substitution
point in the title. -/
def REPOSITORY_HEAD : String :=
  "\n<!doctype html>\n<html>\n    <head>\n        <title>"

/-- Text of `templates.REPOSITORY` between its two substitution points. -/
def REPOSITORY_MID : String :=
  "</title>\n        <style>\n        html, body, a \x7b margin: 0; padding: 0; border: 0; font-size: 100%; font: inherit; vertical-align: baseline; \x7d\n        body \x7b line-height: 1; margin: .5rem\x7d\n        a \x7b display: block; padding: .5rem 1rem; border: 1px solid #ccc; margin: .5rem; \x7d\n        a:hover \x7b background: #eee; \x7d\n        </style>\n    </head>\n    <body>\n        "

/-- Percent-formatting of `templates.REPOSITORY`. -/
def renderRepository (repository_name links : String) : String :=
  REPOSITORY_HEAD ++ repository_name ++ REPOSITORY_MID ++ links ++ TEMPLATE_TAIL

/-- `WsgiApplication.dispatch_index`: the rendered index page. -/
def dispatch_index (domain : String) (repositories : List (String × Repo)) : String :=
  renderIndex (pyJoin "\n"
    (repositories.map (fun p => aLink (domain ++ urlRepository p.1) p.2.full_name)))

/-- `WsgiApplication.dispatch_repository`.  When `_get_repo_releases_links`
returns `None` (repository resolved, zero releases), the generator expression
`... for item in releases` iterates over `None`, so the join raises an
uncaught `TypeError` — modelled by the `typeError` branch. -/
def dispatch_repository (domain : String) (repositories : List (String × Repo))
    (repository_name : String) : Except PyError String :=
  match get_repo_releases_links domain repositories repository_name with
  | .error e => .error e
  | .ok none => .error (.typeError "NoneType object is not iterable")
  | .ok (some releases) =>
    .ok (renderRepository repository_name
      (pyJoin "\n" (releases.map (fun item => aLink item.1 item.2))))

/-- The value of `self._auth.get(token, self._auth.get(password))` used to
authorize the asset download URL. -/
def authAccessToken : Auth → String
  | .token value => value
  | .userPass _ password => password

/-- Error message raised by `_find_release_download_link` when no asset of the
release carries the expected filename. -/
def assetNotFoundMessage (release_instance : Release) : String :=
  "Asset \"" ++ ASSET_FILENAME ++ "\" not found in release \"" ++
    release_instance.name ++ "\""

/-- `WsgiApplication._find_release_download_link`: first asset named
`pypi.tar.gz` wins (the for-loop breaks), its download URL gets the caller's
access token appended; otherwise `NotFound` with the descriptive message. -/
def find_release_download_link (auth : Auth) (release_instance : Release) :
    Except PyError String :=
  match release_instance.assets.find? (fun a => a.name == ASSET_FILENAME) with
  | some asset =>
    .ok (asset.download_url ++ "?access_token=" ++ authAccessToken auth)
  | none => .error (.http (.notFound (some (assetNotFoundMessage release_instance))))

/-- Resolution part of `WsgiApplication.dispatch_download` (everything before
the proxied HTTP fetch): resolve the release mapping (`NotFound` when the
repository is unknown or has no releases), subscript it with the requested
tag — a missing tag raises an uncaught Python `KeyError` — and locate the
downloadable asset. -/
def dispatch_download_resolve (auth : Auth) (repositories : List (String × Repo))
    (repository_name release_name : String) : Except PyError String :=
  match get_releases repositories repository_name with
  | .error e => .error e
  | .ok none => .error (.http (.notFound none))
  | .ok (some repo_releases) =>
    match pyDictGet release_name repo_releases with
    | none => .error (.keyError release_name)
    | some wanted_release => find_release_download_link auth wanted_release

/-- `WsgiApplication.dispatch_download`: resolve the asset URL, fetch it with
the caller's credential, `NotFound` unless the upstream answers 200 OK. -/
def dispatch_download (env : ApiEnv) (auth : Auth)
    (repositories : List (String × Repo)) (repository_name release_name : String) :
    Except PyError String :=
  match dispatch_download_resolve auth repositories repository_name release_name with
  | .error e => .error e
  | .ok asset_url =>
    let tarball := env.fetch asset_url
    if tarball.1 == 200 then .ok tarball.2 else .error (.http (.notFound none))

/-- An inbound WSGI request: URL pieces, the raw query string, and the parsed
Basic-Auth header (username, password) when present. -/
structure Request where
  scheme : String
  host : String
  path : String
  query_string : String
  authorization : Option (String × String)
deriving DecidableEq

/-- `WsgiApplication._get_authorization`: missing/blank username is
`Unauthorized` with the Basic challenge; username plus non-empty password is a
password credential; a lone username is treated as a token. -/
def get_authorization (request : Request) : Except PyError Auth :=
  let username := pyStrip ((request.authorization.map (fun a => a.1)).getD "")
  let password := pyStrip ((request.authorization.map (fun a => a.2)).getD "")
  if username == "" then
    .error (.http (.unauthorized "Basic realm=\"Simple index\""))
  else if password == "" then .ok (.token username)
  else .ok (.userPass username password)

/-- `WsgiApplication._authorize_github`: `AuthenticationFailed` from `me()` or
a null current user are both `Forbidden`; otherwise the current user login. -/
def authorize_github (env : ApiEnv) : Except PyError String :=
  match env.me with
  | .error _ => .error (.http .forbidden)
  | .ok none => .error (.http .forbidden)
  | .ok (some login) => .ok login

/-- `WsgiApplication._get_request_domain`: the request's base URL rewritten to
carry the caller's credential in the authority component. -/
def get_request_domain (auth : Auth) (scheme host : String) : String :=
  match auth with
  | .token value => scheme ++ "://" ++ value ++ "@" ++ host
  | .userPass username password =>
    scheme ++ "://" ++ username ++ ":" ++ password ++ "@" ++ host

/-- The three routing endpoints of `WsgiApplication._URLS`. -/
inductive Endpoint where
  | index
  | repository (repository_name : String)
  | download (repository_name : String) (release_name : String)
deriving DecidableEq

/-- Split of a character list at a separator character (Python-style `split`). -/
def splitOnChar (c : Char) : List Char → List (List Char)
  | [] => [[]]
  | a :: t =>
    if a == c then [] :: splitOnChar c t
    else
      match splitOnChar c t with
      | [] => [[a]]
      | h :: r => (a :: h) :: r

/-- Path segments of a URL path. -/
def splitSlash (s : String) : List String :=
  (splitOnChar '/' s.data).map String.mk

/-- Bool test that a string ends with the given text. -/
def strEndsWith (s pat : String) : Bool :=
  pat.data.isSuffixOf s.data

/-- Matching of `WsgiApplication._URLS` against a request path: the index
rule, the repository rule (trailing slash, non-empty single segment) and the
download rule (`<repository_name>/release/<release_name>.tar.gz`).  Any other
path fails to match and werkzeug raises `NotFound`. -/
def matchRoute (path : String) : Except PyError Endpoint :=
  match splitSlash path with
  | ["", ""] => .ok .index
  | ["", n, ""] =>
    if n == "" then .error (.http (.notFound none)) else .ok (.repository n)
  | ["", n, "release", f] =>
    if n == "" then .error (.http (.notFound none))
    else if strEndsWith f ".tar.gz" = true ∧ 7 < f.data.length then
      .ok (.download n (String.mk (f.data.take (f.data.length - 7))))
    else .error (.http (.notFound none))
  | _ => .error (.http (.notFound none))

/-- The snapshot store (cachelib FileSystemCache) keyed by strings.  The value
stored under `CACHE_KEY` is the serialized repository mapping; on this data
model the `_json_data` serialization and the re-hydration binding it to the
current session are the identity.  TTL expiry is timing behaviour outside this
embedding. -/
abbrev CacheStore : Type := List (String × List (String × Repo))

/-- Lookup in the cache store. -/
def cacheGet (cache : CacheStore) (k : String) : Option (List (String × Repo)) :=
  pyDictGet k cache

/-- The `WsgiApplication.repositories` property: serve the cached snapshot if
present, otherwise resolve freshly, store the snapshot and return the live
mapping (threading the updated store). -/
def repositories_property (env : ApiEnv) (login : String)
    (ids : List UserOrOrg) (cache : CacheStore) :
    Except PyError (List (String × Repo) × CacheStore) :=
  match cacheGet cache CACHE_KEY with
  | some value => .ok (value, cache)
  | none =>
    match get_installable_repositories env login ids with
    | .error e => .error e
    | .ok data =>
      .ok (data, pyDictInsert (cache : List (String × List (String × Repo))) CACHE_KEY data)

/-- First statement of `WsgiApplication.__call__`: when the byte text
`purge_cache` occurs anywhere in the raw query string, the cache entry under
`CACHE_KEY` is deleted — before any credential handling. -/
def purge_stage (cache : CacheStore) (request : Request) : CacheStore :=
  if strContains request.query_string "purge_cache" then
    pyDictDelete (cache : List (String × List (String × Repo))) CACHE_KEY
  else cache

/-- Body of the try-block of `WsgiApplication.__call__` after the purge:
credential extraction, upstream authorization, domain computation, route
matching and dispatching, threading the cache store. -/
def wsgi_pipeline (envOf : Auth → ApiEnv) (ids : List UserOrOrg)
    (cache : CacheStore) (request : Request) :
    Except PyError String × CacheStore :=
  match get_authorization request with
  | .error e => (.error e, cache)
  | .ok auth =>
    let env := envOf auth
    match authorize_github env with
    | .error e => (.error e, cache)
    | .ok login =>
      let domain := get_request_domain auth request.scheme request.host
      match matchRoute request.path with
      | .error e => (.error e, cache)
      | .ok endpoint =>
        match repositories_property env login ids cache with
        | .error e => (.error e, cache)
        | .ok (repositories, cache1) =>
          match endpoint with
          | .index => (.ok (dispatch_index domain repositories), cache1)
          | .repository n => (dispatch_repository domain repositories n, cache1)
          | .download n t => (dispatch_download env auth repositories n t, cache1)

/-- Outcome of one WSGI call: a rendered 200 response, a werkzeug HTTP
exception rendered as its error response, or a Python exception that escaped
the `except HTTPException` handler (a 500 at the server). -/
inductive WsgiOutcome where
  | response (body : String)
  | httpError (e : HttpError)
  | crashed (e : PyError)
deriving DecidableEq

/-- `WsgiApplication.__call__`: purge stage first, then the guarded pipeline;
only `HTTPException` values are caught and rendered. -/
def wsgi_call (envOf : Auth → ApiEnv) (ids : List UserOrOrg)
    (cache : CacheStore) (request : Request) : WsgiOutcome × CacheStore :=
  let cache1 := purge_stage cache request
  match wsgi_pipeline envOf ids cache1 request with
  | (.ok body, c) => (.response body, c)
  | (.error (.http e), c) => (.httpError e, c)
  | (.error e, c) => (.crashed e, c)

/-- Modelled from the spec: the public-archive-link shortcut of the Release
Resolver belongs to this repository's newer application module, which is
absent from the sources at hand (only `simple_vcs_pypi/__init__.py` importing
it is present); the spec specifies it as deriving
`html_url` stripped of trailing slashes, plus `/archive/`, plus the tag, plus
`.tar.gz` for a public repository, and failing with the `NotImplemented`
error class for a private repository instead of returning an unauthenticated
URL. -/
def get_public_archive_link (repository : Repo) (tag : String) :
    Except PyError String :=
  if repository.is_private then .error (.http .notImplementedError)
  else
    .ok (stripTrailingSlashes repository.html_url ++ "/archive/" ++ tag ++ ".tar.gz")

/-- Concrete repository used by witnesses: owned by alice, no releases. -/
def repoA1 : Repo :=
  { name := "pkg", full_name := "alice/pkg", owner_login := "alice",
    is_private := false, html_url := "https://git.example/alice/pkg",
    releases := [] }

/-- Concrete repository colliding with `repoA1` on the short name. -/
def repoA2 : Repo :=
  { name := "pkg", full_name := "bob/pkg", owner_login := "bob",
    is_private := false, html_url := "https://git.example/bob/pkg",
    releases := [] }

/-- Environment whose batched current-user search yields the two colliding
repositories. -/
def envConflict : ApiEnv :=
  { me := .ok (some "alice"), organizations := [], all_repositories := [],
    code_search := fun _ => .ok [⟨repoA1⟩, ⟨repoA2⟩],
    fetch := fun _ => (404, "") }

/-- Concrete repository named with an upper-case letter, for the sort witness. -/
def repoZeta : Repo :=
  { name := "Zeta", full_name := "alice/Zeta", owner_login := "alice",
    is_private := false, html_url := "https://git.example/alice/Zeta",
    releases := [] }

/-- Concrete repository sorting before `repoZeta` case-insensitively. -/
def repoAlpha : Repo :=
  { name := "alpha", full_name := "alice/alpha", owner_login := "alice",
    is_private := false, html_url := "https://git.example/alice/alpha",
    releases := [] }

/-- Environment listing `repoZeta` then `repoAlpha` (unsorted). -/
def envSorted : ApiEnv :=
  { me := .ok (some "alice"), organizations := [], all_repositories := [],
    code_search := fun _ => .ok [⟨repoZeta⟩, ⟨repoAlpha⟩],
    fetch := fun _ => (404, "") }

/-- Environment whose every search call raises a `GitHubException`. -/
def envSearchError : ApiEnv :=
  { me := .ok (some "alice"), organizations := [], all_repositories := [],
    code_search := fun _ => .error "GitHubException: boom",
    fetch := fun _ => (404, "") }

/-- Release tagged v1 created at time 1. -/
def relA1 : Release :=
  { tag_name := "v1", name := "first", created_at := 1, assets := [] }

/-- Release tagged v2 created at time 2. -/
def relB2 : Release :=
  { tag_name := "v2", name := "second", created_at := 2, assets := [] }

/-- A second release tagged v1, created later, at time 3. -/
def relA3 : Release :=
  { tag_name := "v1", name := "third", created_at := 3, assets := [] }

/-- Release list with a duplicated tag: v1 at time 1, v2 at time 2, v1 again
at time 3. -/
def dupTagReleases : List Release := [relA1, relB2, relA3]

/-- Repository whose short name carries an underscore, with one release. -/
def repoUnd : Repo :=
  { name := "my_pkg", full_name := "alice/my_pkg", owner_login := "alice",
    is_private := false, html_url := "https://git.example/alice/my_pkg",
    releases := [relA1] }

/-- Mapping holding only `repoUnd` under its stored name. -/
def mapUnd : List (String × Repo) := [("my_pkg", repoUnd)]

/-- An asset that does not match the expected fixed filename. -/
def assetOther : Asset :=
  { name := "other.zip", download_url := "https://git.example/dl/other.zip" }

/-- A release whose only asset has the wrong name. -/
def relNoAsset : Release :=
  { tag_name := "v1", name := "release-one", created_at := 1,
    assets := [assetOther] }

/-- Repository whose single release lacks the expected asset. -/
def repoNoAsset : Repo :=
  { name := "pkg", full_name := "alice/pkg", owner_login := "alice",
    is_private := false, html_url := "https://git.example/alice/pkg",
    releases := [relNoAsset] }

/-- Mapping holding only `repoNoAsset`. -/
def mapNoAsset : List (String × Repo) := [("pkg", repoNoAsset)]

/-- Mapping holding a resolvable repository with zero releases. -/
def mapEmptyReleases : List (String × Repo) := [("pkg", repoA1)]

/-- Repository with exactly the release tagged v1. -/
def repoOneRelease : Repo :=
  { name := "pkg", full_name := "alice/pkg", owner_login := "alice",
    is_private := false, html_url := "https://git.example/alice/pkg",
    releases := [relA1] }

/-- Mapping holding only `repoOneRelease`. -/
def mapOneRelease : List (String × Repo) := [("pkg", repoOneRelease)]

/-- A private repository, for the archive-shortcut witness. -/
def repoPrivate : Repo :=
  { name := "secret", full_name := "alice/secret", owner_login := "alice",
    is_private := true, html_url := "https://git.example/alice/secret/",
    releases := [] }

/-- A credential-free request whose query string carries the purge marker. -/
def reqPurge : Request :=
  { scheme := "http", host := "localhost:8000", path := "/",
    query_string := "x_purge_cache_y=1", authorization := none }

/-- A cache store already holding a snapshot under the fixed key. -/
def cachePrimed : CacheStore := [(CACHE_KEY, [("pkg", repoA1)])]

/-! Generic helper lemmas about the Python-semantics helpers. -/

theorem strData_append (a b : String) : (a ++ b).data = a.data ++ b.data := by
  cases a; cases b; rfl

theorem strOccursIn_trans {x m h : String} (h1 : strOccursIn x m)
    (h2 : strOccursIn m h) : strOccursIn x h := by
  obtain ⟨u1, v1, e1⟩ := h1
  obtain ⟨u2, v2, e2⟩ := h2
  exact ⟨u2 ++ u1, v1 ++ v2, by rw [← e2, ← e1]; simp [List.append_assoc]⟩

theorem strOccursIn_pyJoin (sep : String) :
    ∀ (l : List String) (x : String), x ∈ l → strOccursIn x (pyJoin sep l) := by
  intro l
  induction l with
  | nil => intro x hx; exact absurd hx (List.not_mem_nil x)
  | cons y t ih =>
    intro x hx
    cases t with
    | nil =>
      rw [List.mem_singleton] at hx
      subst hx
      exact ⟨[], [], by simp [pyJoin]⟩
    | cons z t2 =>
      rcases List.mem_cons.mp hx with hxy | hxt
      · subst hxy
        refine ⟨[], sep.data ++ (pyJoin sep (z :: t2)).data, ?_⟩
        simp [pyJoin, strData_append, List.append_assoc]
      · obtain ⟨u, v, huv⟩ := ih x hxt
        refine ⟨(y ++ sep).data ++ u, v, ?_⟩
        simp only [pyJoin, strData_append, ← huv, List.append_assoc]

theorem pyDictGet_insert [BEq κ] [LawfulBEq κ] (d : List (κ × α)) (k k' : κ) (v : α) :
    pyDictGet k (pyDictInsert d k' v) =
      if (k' == k) = true then some v else pyDictGet k d := by
  by_cases hk : pyDictHasKey k' d = true
  · rw [pyDictInsert, if_pos hk]
    have hpred : ((fun p : κ × α => p.1 == k) ∘
        (fun p : κ × α => if p.1 == k' then (p.1, v) else p)) =
        (fun p : κ × α => p.1 == k) := by
      funext p
      by_cases h : (p.1 == k') = true <;> simp [h]
    rw [pyDictGet, List.find?_map, hpred]
    by_cases hkk : (k' == k) = true
    · have hkeq : k' = k := beq_iff_eq.mp hkk
      rw [if_pos hkk]
      rw [hkeq] at hk ⊢
      cases hfind : d.find? (fun p => p.1 == k) with
      | none =>
        rw [List.find?_eq_none] at hfind
        rw [pyDictHasKey, List.any_eq_true] at hk
        obtain ⟨p, hp, hpe⟩ := hk
        exact absurd hpe (by simpa using hfind p hp)
      | some q =>
        have hq1 := List.find?_some hfind
        simp [hq1]
    · have hne : k' ≠ k := fun he => hkk (beq_iff_eq.mpr he)
      rw [if_neg hkk, pyDictGet]
      cases hfind : d.find? (fun p => p.1 == k) with
      | none => simp
      | some q =>
        have hq1 := List.find?_some hfind
        have hqk : (q.1 == k') = false := by
          rw [beq_eq_false_iff_ne]
          intro he
          exact hne (by rw [← he]; exact beq_iff_eq.mp hq1)
        simp [hqk]
  · rw [pyDictInsert, if_neg hk]
    rw [pyDictGet, List.find?_append]
    by_cases hkk : (k' == k) = true
    · have hkeq : k' = k := beq_iff_eq.mp hkk
      have hnone : d.find? (fun p => p.1 == k) = none := by
        rw [List.find?_eq_none]
        intro p hp hpk
        exact hk (by
          rw [pyDictHasKey, List.any_eq_true]
          exact ⟨p, hp, by rw [hkeq]; exact hpk⟩)
      simp [hnone, List.find?, hkk]
    · have hkk' : (k' == k) = false := by simpa using hkk
      have hnone2 : List.find? (fun p : κ × α => p.1 == k) [(k', v)] = none := by
        simp [List.find?, hkk']
      rw [if_neg hkk, hnone2, Option.or_none, pyDictGet]

theorem pyDictGet_delete [BEq κ] (d : List (κ × α)) (k : κ) :
    pyDictGet k (pyDictDelete d k) = none := by
  induction d with
  | nil => rfl
  | cons p t ih =>
    by_cases hp : (p.1 == k) = true
    · simpa [pyDictDelete, List.filter_cons, hp] using ih
    · have hp' : (p.1 == k) = false := by simpa using hp
      have hstep : pyDictDelete (p :: t) k = p :: pyDictDelete t k := by
        simp [pyDictDelete, List.filter_cons, hp']
      rw [hstep, pyDictGet, List.find?_cons_of_neg _ (by simp [hp'])]
      exact ih

theorem pyDictHasKey_insert [BEq κ] [LawfulBEq κ] (d : List (κ × α)) (k k' : κ) (v : α) :
    pyDictHasKey k (pyDictInsert d k' v) = (pyDictHasKey k d || (k' == k)) := by
  rw [pyDictInsert]
  by_cases hk : pyDictHasKey k' d = true
  · rw [if_pos hk, pyDictHasKey, List.any_map]
    have hpred : ((fun p : κ × α => p.1 == k) ∘
        (fun p : κ × α => if p.1 == k' then (p.1, v) else p)) =
        (fun p : κ × α => p.1 == k) := by
      funext p
      by_cases h : (p.1 == k') = true <;> simp [h]
    rw [hpred]
    by_cases hkk : (k' == k) = true
    · have hkeq : k' = k := beq_iff_eq.mp hkk
      rw [hkeq] at hk
      rw [pyDictHasKey] at hk
      simp [pyDictHasKey, hk, hkk]
    · have hkk' : (k' == k) = false := by simpa using hkk
      simp [pyDictHasKey, hkk']
  · rw [if_neg hk, pyDictHasKey, List.any_append]
    simp [pyDictHasKey, List.any_cons]

theorem pyDictBuild_go_nodup [BEq κ] [LawfulBEq κ] :
    ∀ (l acc : List (κ × α)), ((acc ++ l).map Prod.fst).Nodup →
      l.foldl (fun d p => pyDictInsert d p.1 p.2) acc = acc ++ l := by
  intro l
  induction l with
  | nil => intro acc _; simp
  | cons p t ih =>
    intro acc h
    have hnotin : p.1 ∉ acc.map Prod.fst := by
      intro hmem
      have : (acc.map Prod.fst).Disjoint ((p :: t).map Prod.fst) := by
        rw [List.map_append, List.nodup_append] at h
        exact h.2.2
      exact this hmem (by simp)
    have hkey : pyDictHasKey p.1 acc = false := by
      rw [← Bool.not_eq_true, pyDictHasKey, List.any_eq_true]
      rintro ⟨q, hq, hqe⟩
      exact hnotin (by
        rw [List.mem_map]
        exact ⟨q, hq, beq_iff_eq.mp hqe⟩)
    have hins : pyDictInsert acc p.1 p.2 = acc ++ [p] := by
      rw [pyDictInsert, hkey]
      simp
    rw [List.foldl_cons, hins]
    have hn2 : (((acc ++ [p]) ++ t).map Prod.fst).Nodup := by
      simpa [List.append_assoc] using h
    have := ih (acc ++ [p]) hn2
    simpa [List.append_assoc] using this

theorem pyDictBuild_eq_self [BEq κ] [LawfulBEq κ] (l : List (κ × α))
    (h : (l.map Prod.fst).Nodup) : pyDictBuild l = l := by
  simpa using pyDictBuild_go_nodup l [] (by simpa using h)

theorem pyDictGet_foldl [BEq κ] [LawfulBEq κ] :
    ∀ (l acc : List (κ × α)) (k : κ),
      pyDictGet k (l.foldl (fun d p => pyDictInsert d p.1 p.2) acc) =
        (lastVal? k l).or (pyDictGet k acc) := by
  intro l
  induction l with
  | nil => intro acc k; simp [lastVal?]
  | cons p t ih =>
    intro acc k
    rw [List.foldl_cons, ih, pyDictGet_insert]
    cases hl : lastVal? k t with
    | some v => simp [lastVal?, hl]
    | none =>
      by_cases hp : (p.1 == k) = true <;> simp [lastVal?, hl, hp]

theorem pyDictGet_build [BEq κ] [LawfulBEq κ] (l : List (κ × α)) (k : κ) :
    pyDictGet k (pyDictBuild l) = lastVal? k l := by
  have := pyDictGet_foldl l [] k
  simpa [pyDictBuild, pyDictGet] using this

theorem lastVal?_eq_none [BEq κ] (l : List (κ × α)) (k : κ) :
    lastVal? k l = none ↔ ∀ p ∈ l, (p.1 == k) = false := by
  induction l with
  | nil => simp [lastVal?]
  | cons p t ih =>
    cases hl : lastVal? k t with
    | some v =>
      have hmem : ¬ (∀ q ∈ p :: t, (q.1 == k) = false) := by
        intro hall
        have : ∀ q ∈ t, (q.1 == k) = false :=
          fun q hq => hall q (List.mem_cons_of_mem p hq)
        rw [ih.mpr this] at hl
        exact absurd hl (by simp)
      simp only [lastVal?, hl]
      constructor
      · intro he; exact absurd he (by simp)
      · intro hall; exact absurd hall hmem
    | none =>
      by_cases hp : (p.1 == k) = true
      · have hval : lastVal? k (p :: t) = some p.2 := by
          simp [lastVal?, hl, hp]
        rw [hval]
        constructor
        · intro he; exact absurd he (by simp)
        · intro hall
          exact absurd hp (by simp [hall p (List.mem_cons_self p t)])
      · have hp' : (p.1 == k) = false := by simpa using hp
        have hval : lastVal? k (p :: t) = none := by
          simp [lastVal?, hl, hp']
        rw [hval]
        constructor
        · intro _ q hq
          rcases List.mem_cons.mp hq with h | h
          · rw [h]; exact hp'
          · exact ih.mp hl q h
        · intro _; rfl

theorem listLexLe_total : ∀ x y : List Char,
    listLexLe x y = true ∨ listLexLe y x = true := by
  intro x
  induction x with
  | nil => intro y; left; rfl
  | cons a as1 ih =>
    intro y
    cases y with
    | nil => right; rfl
    | cons b bs1 =>
      by_cases h1 : a.toNat < b.toNat
      · left; simp [listLexLe, h1]
      · by_cases h2 : b.toNat < a.toNat
        · right; simp [listLexLe, h2]
        · rcases ih bs1 with h | h
          · left; simp [listLexLe, h1, h2, h]
          · right; simp [listLexLe, h1, h2, h]

theorem listLexLe_trans : ∀ x y z : List Char,
    listLexLe x y = true → listLexLe y z = true → listLexLe x z = true := by
  intro x
  induction x with
  | nil => intro y z _ _; rfl
  | cons a as1 ih =>
    intro y z hxy hyz
    cases y with
    | nil => exact absurd hxy (by simp [listLexLe])
    | cons b bs1 =>
      cases z with
      | nil => exact absurd hyz (by simp [listLexLe])
      | cons c cs1 =>
        by_cases h1 : a.toNat < b.toNat
        · by_cases h2 : b.toNat < c.toNat
          · have h3 : a.toNat < c.toNat := Nat.lt_trans h1 h2
            simp [listLexLe, h3]
          · by_cases h4 : c.toNat < b.toNat
            · exact absurd hyz (by simp [listLexLe, h2, h4])
            · have h3 : a.toNat < c.toNat := by omega
              simp [listLexLe, h3]
        · by_cases h5 : b.toNat < a.toNat
          · exact absurd hxy (by simp [listLexLe, h1, h5])
          · by_cases h2 : b.toNat < c.toNat
            · have h3 : a.toNat < c.toNat := by omega
              simp [listLexLe, h3]
            · by_cases h4 : c.toNat < b.toNat
              · exact absurd hyz (by simp [listLexLe, h2, h4])
              · have h3 : ¬ a.toNat < c.toNat := by omega
                have h6 : ¬ c.toNat < a.toNat := by omega
                have hxy2 : listLexLe as1 bs1 = true := by
                  simpa [listLexLe, h1, h5] using hxy
                have hyz2 : listLexLe bs1 cs1 = true := by
                  simpa [listLexLe, h2, h4] using hyz
                simpa [listLexLe, h3, h6] using ih bs1 cs1 hxy2 hyz2

instance : IsTotal Repo repoLe :=
  ⟨fun a b => listLexLe_total (pyLower a.name).data (pyLower b.name).data⟩

instance : IsTrans Repo repoLe :=
  ⟨fun a b c hab hbc =>
    listLexLe_trans (pyLower a.name).data (pyLower b.name).data
      (pyLower c.name).data hab hbc⟩

instance : IsTotal Release releaseLe :=
  ⟨fun a b => Nat.le_total a.created_at b.created_at⟩

instance : IsTrans Release releaseLe :=
  ⟨fun _ _ _ hab hbc => Nat.le_trans hab hbc⟩

theorem sorted_unique_by_created :
    ∀ (l1 l2 : List Release), l1.Perm l2 →
      List.Sorted releaseLe l1 → List.Sorted releaseLe l2 →
      (l1.map Release.created_at).Nodup → l1 = l2 := by
  intro l1
  induction l1 with
  | nil =>
    intro l2 hp _ _ _
    exact (hp.symm.eq_nil).symm
  | cons a t ih =>
    intro l2 hp hs1 hs2 hn
    cases l2 with
    | nil => exact absurd hp.eq_nil (by simp)
    | cons b t2 =>
      by_cases hab : a = b
      · subst hab
        have hp' := hp.cons_inv
        have hn' : (t.map Release.created_at).Nodup := by
          have hn2 := hn
          rw [List.map_cons] at hn2
          exact hn2.of_cons
        have heq := ih t2 hp' hs1.of_cons hs2.of_cons hn'
        rw [heq]
      · have hbmem : b ∈ a :: t := hp.mem_iff.mpr (List.mem_cons_self b t2)
        have hamem : a ∈ b :: t2 := hp.mem_iff.mp (List.mem_cons_self a t)
        have hb_t : b ∈ t := by
          rcases List.mem_cons.mp hbmem with h | h
          · exact absurd h.symm hab
          · exact h
        have ha_t2 : a ∈ t2 := by
          rcases List.mem_cons.mp hamem with h | h
          · exact absurd h hab
          · exact h
        have h1 : releaseLe a b := (List.pairwise_cons.mp hs1).1 b hb_t
        have h2 : releaseLe b a := (List.pairwise_cons.mp hs2).1 a ha_t2
        have hc : a.created_at = b.created_at := Nat.le_antisymm h1 h2
        have heq := List.inj_on_of_nodup_map hn (List.mem_cons_self a t)
          (List.mem_cons_of_mem a hb_t) hc
        exact absurd heq hab

theorem buildChecker_go :
    ∀ (l : List Repo) (acc : List (String × List Repo)) (pre : List Repo),
      (∀ p ∈ acc, p.2 = pre.filter (fun r => r.name == p.1)) →
      (∀ r ∈ pre, acc.any (fun p => p.1 == r.name) = true) →
      (∀ p ∈ l.foldl addToChecker acc,
        p.2 = (pre ++ l).filter (fun r => r.name == p.1)) ∧
      (∀ r ∈ pre ++ l,
        (l.foldl addToChecker acc).any (fun p => p.1 == r.name) = true) := by
  intro l
  induction l with
  | nil =>
    intro acc pre h1 h2
    constructor
    · intro p hp; simpa using h1 p hp
    · intro r hr; exact h2 r (by simpa using hr)
  | cons repo rest ih =>
    intro acc pre h1 h2
    have hstep1 : ∀ p ∈ addToChecker acc repo,
        p.2 = (pre ++ [repo]).filter (fun r => r.name == p.1) := by
      intro p hp
      rw [addToChecker] at hp
      by_cases hmem : acc.any (fun q => q.1 == repo.name) = true
      · rw [if_pos hmem, List.mem_map] at hp
        obtain ⟨q, hq, hqe⟩ := hp
        by_cases hqn : (q.1 == repo.name) = true
        · rw [if_pos hqn] at hqe
          rw [← hqe]
          simp only [List.filter_append]
          rw [← h1 q hq]
          have hrq : (repo.name == q.1) = true := by
            rw [beq_iff_eq]
            exact (beq_iff_eq.mp hqn).symm
          simp [List.filter_cons, hrq]
        · rw [if_neg hqn] at hqe
          rw [← hqe]
          simp only [List.filter_append]
          rw [← h1 q hq]
          have hrq : (repo.name == q.1) = false := by
            rw [beq_eq_false_iff_ne]
            intro he
            exact hqn (beq_iff_eq.mpr he.symm)
          simp [List.filter_cons, hrq]
      · rw [if_neg hmem] at hp
        rcases List.mem_append.mp hp with h | h
        · have hqn : (p.1 == repo.name) = false := by
            rw [← Bool.not_eq_true]
            intro hq
            exact hmem (by rw [List.any_eq_true]; exact ⟨p, h, hq⟩)
          rw [List.filter_append, ← h1 p h]
          have hrq : (repo.name == p.1) = false := by
            rw [beq_eq_false_iff_ne]
            rw [beq_eq_false_iff_ne] at hqn
            intro he
            exact hqn he.symm
          simp [List.filter_cons, hrq]
        · rw [List.mem_singleton] at h
          rw [h]
          have hpre : ∀ r' ∈ pre, (r'.name == repo.name) = false := by
            intro r' hr'
            rw [← Bool.not_eq_true]
            intro hrn
            have hany := h2 r' hr'
            rw [List.any_eq_true] at hany
            obtain ⟨q, hq, hqe⟩ := hany
            have hq2 : (q.1 == repo.name) = true := by
              rw [beq_iff_eq] at hqe ⊢
              rw [hqe]
              exact beq_iff_eq.mp hrn
            exact hmem (by rw [List.any_eq_true]; exact ⟨q, hq, hq2⟩)
          simp only [List.filter_append]
          have hnil : pre.filter (fun r => r.name == repo.name) = [] :=
            List.filter_eq_nil_iff.mpr (fun r' hr' => by simp [hpre r' hr'])
          rw [hnil]
          simp [List.filter_cons]
    have hkeys : ∀ s, (addToChecker acc repo).any (fun p => p.1 == s) =
        (acc.any (fun p => p.1 == s) || (repo.name == s)) := by
      intro s
      rw [addToChecker]
      by_cases hmem : acc.any (fun q => q.1 == repo.name) = true
      · rw [if_pos hmem, List.any_map]
        have hpred : ((fun p : String × List Repo => p.1 == s) ∘
            (fun p => if p.1 == repo.name then (p.1, p.2 ++ [repo]) else p)) =
            (fun p : String × List Repo => p.1 == s) := by
          funext p
          by_cases h : (p.1 == repo.name) = true
          · have he : p.1 = repo.name := beq_iff_eq.mp h
            simp [he]
          · have he : p.1 ≠ repo.name := by simpa using h
            simp [he]
        rw [hpred]
        by_cases hrs : (repo.name == s) = true
        · have hacc : acc.any (fun p => p.1 == s) = true := by
            rw [List.any_eq_true] at hmem ⊢
            obtain ⟨q, hq, hqe⟩ := hmem
            refine ⟨q, hq, ?_⟩
            rw [beq_iff_eq] at hqe ⊢
            rw [hqe]
            exact beq_iff_eq.mp hrs
          simp [hacc, hrs]
        · have hrs' : (repo.name == s) = false := by simpa using hrs
          simp [hrs']
      · rw [if_neg hmem, List.any_append]
        simp [List.any_cons]
    have hstep2 : ∀ r ∈ pre ++ [repo],
        (addToChecker acc repo).any (fun p => p.1 == r.name) = true := by
      intro r hr
      rw [hkeys]
      rcases List.mem_append.mp hr with h | h
      · simp [h2 r h]
      · rw [List.mem_singleton] at h
        subst h
        simp
    have hmain := ih (addToChecker acc repo) (pre ++ [repo]) hstep1 hstep2
    constructor
    · intro p hp
      have hfold : (repo :: rest).foldl addToChecker acc =
          rest.foldl addToChecker (addToChecker acc repo) := rfl
      rw [hfold] at hp
      have := hmain.1 p hp
      simpa [List.append_assoc] using this
    · intro r hr
      have hr2 : r ∈ (pre ++ [repo]) ++ rest := by
        simpa [List.append_assoc] using hr
      have := hmain.2 r hr2
      simpa using this

theorem buildChecker_groups (l : List Repo) :
    ∀ p ∈ buildChecker l, p.2 = l.filter (fun r => r.name == p.1) := by
  intro p hp
  have := (buildChecker_go l [] [] (by simp) (by simp)).1 p hp
  simpa using this

theorem buildChecker_covers (l : List Repo) :
    ∀ r ∈ l, (buildChecker l).any (fun p => p.1 == r.name) = true := by
  intro r hr
  have := (buildChecker_go l [] [] (by simp) (by simp)).2 r (by simpa using hr)
  simpa using this

theorem count_name_eq_filter_length (l : List Repo) (s : String) :
    (l.map Repo.name).count s = (l.filter (fun r => r.name == s)).length := by
  induction l with
  | nil => rfl
  | cons r t ih =>
    by_cases h : (r.name == s) = true
    · simp [List.count_cons, List.filter_cons, h, ih]
    · have h' : (r.name == s) = false := by simpa using h
      simp [List.count_cons, List.filter_cons, h', ih]

theorem two_mem_one_lt_length (l : List α) (a b : α)
    (ha : a ∈ l) (hb : b ∈ l) (hne : a ≠ b) : 1 < l.length := by
  match l with
  | [] => exact absurd ha (List.not_mem_nil a)
  | [x] =>
    rw [List.mem_singleton] at ha hb
    rw [ha, ← hb] at hne
    exact absurd rfl hne
  | x :: y :: t => simp only [List.length_cons]; omega

theorem conflicts_nil_names_nodup (l : List Repo) (h : conflictsOf l = []) :
    (l.map Repo.name).Nodup := by
  rw [List.nodup_iff_count_le_one]
  intro s
  rw [count_name_eq_filter_length]
  by_contra hgt
  push_neg at hgt
  have hne : l.filter (fun r => r.name == s) ≠ [] := by
    intro he
    rw [he] at hgt
    simp at hgt
  obtain ⟨r, hr⟩ := List.exists_mem_of_ne_nil _ hne
  have hrl : r ∈ l := (List.mem_filter.mp hr).1
  have hrs : r.name = s := beq_iff_eq.mp (List.mem_filter.mp hr).2
  have hcov := buildChecker_covers l r hrl
  rw [List.any_eq_true] at hcov
  obtain ⟨p, hpmem, hpname⟩ := hcov
  have hpn : p.1 = r.name := beq_iff_eq.mp hpname
  have hgrp := buildChecker_groups l p hpmem
  have hpc : p ∈ conflictsOf l := by
    rw [conflictsOf, List.mem_filter]
    refine ⟨hpmem, ?_⟩
    rw [hgrp, hpn, hrs]
    exact decide_eq_true hgt
  rw [h] at hpc
  exact absurd hpc (List.not_mem_nil p)

theorem pyDictGet_none_iff [BEq κ] (d : List (κ × α)) (k : κ) :
    pyDictGet k d = none ↔ pyDictHasKey k d = false := by
  constructor
  · intro h
    rw [pyDictGet, Option.map_eq_none', List.find?_eq_none] at h
    rw [← Bool.not_eq_true, pyDictHasKey, List.any_eq_true]
    rintro ⟨p, hp, hpe⟩
    exact h p hp hpe
  · intro h
    rw [pyDictGet, Option.map_eq_none', List.find?_eq_none]
    intro p hp hpe
    rw [← Bool.not_eq_true, pyDictHasKey, List.any_eq_true] at h
    exact h ⟨p, hp, hpe⟩

theorem aliasKeys_foldl :
    ∀ (l acc : List (String × Repo)) (k : String),
      pyDictHasKey k (l.foldl
        (fun a p => pyDictInsert (pyDictInsert a p.1 p.2)
          (replaceUnderscores p.1) p.2) acc) =
      (pyDictHasKey k acc ||
        l.any (fun p => p.1 == k || replaceUnderscores p.1 == k)) := by
  intro l
  induction l with
  | nil => intro acc k; simp
  | cons p t ih =>
    intro acc k
    rw [List.foldl_cons, ih, pyDictHasKey_insert, pyDictHasKey_insert]
    simp [List.any_cons, Bool.or_assoc]

theorem repositoriesWithAliases_hasKey (repositories : List (String × Repo))
    (k : String) :
    pyDictHasKey k (repositoriesWithAliases repositories) =
      repositories.any (fun p => p.1 == k || replaceUnderscores p.1 == k) := by
  have := aliasKeys_foldl repositories [] k
  simpa [repositoriesWithAliases, pyDictHasKey] using this

theorem lastVal_sorted_releases :
    ∀ (s : List Release) (t : String) (r : Release),
      List.Sorted releaseLe s →
      lastVal? t (s.map (fun x => (x.tag_name, x))) = some r →
      r ∈ s ∧ r.tag_name = t ∧
        ∀ x ∈ s, x.tag_name = t → x.created_at ≤ r.created_at := by
  intro s
  induction s with
  | nil => intro t r _ h; exact absurd h (by simp [lastVal?])
  | cons p rest ih =>
    intro t r hs h
    rw [List.map_cons] at h
    cases hl : lastVal? t (rest.map (fun x => (x.tag_name, x))) with
    | some v =>
      simp only [lastVal?, hl] at h
      have hv : v = r := Option.some.inj h
      rw [hv] at hl
      obtain ⟨hmem, htag, hle⟩ := ih t r hs.of_cons hl
      refine ⟨List.mem_cons_of_mem p hmem, htag, ?_⟩
      intro x hx hxt
      rcases List.mem_cons.mp hx with hxp | hxr
      · rw [hxp]
        exact (List.pairwise_cons.mp hs).1 r hmem
      · exact hle x hxr hxt
    | none =>
      simp only [lastVal?, hl] at h
      by_cases hp : (p.tag_name == t) = true
      · rw [if_pos hp] at h
        have hrp : p = r := Option.some.inj h
        rw [← hrp]
        refine ⟨List.mem_cons_self p rest, beq_iff_eq.mp hp, ?_⟩
        intro x hx hxt
        rcases List.mem_cons.mp hx with hxp | hxr
        · rw [hxp]
        · have hnone := (lastVal?_eq_none _ t).mp hl
          have hfx : ((x.tag_name, x).1 == t) = false :=
            hnone (x.tag_name, x) (List.mem_map_of_mem _ hxr)
          rw [beq_eq_false_iff_ne] at hfx
          exact absurd hxt hfx
      · rw [if_neg hp] at h
        exact absurd h (by simp)

/-! Claim theorems. -/

/-- C9: for every private repository, the public-archive-link shortcut fails
with the NotImplemented error class rather than returning an unauthenticated
archive URL. -/
theorem c9_private_archive_shortcut (repository : Repo) (tag : String)
    (h : repository.is_private = true) :
    get_public_archive_link repository tag =
      .error (.http .notImplementedError) := by
  rw [get_public_archive_link, if_pos h]

theorem c9_private_archive_shortcut_witness :
    get_public_archive_link repoPrivate "v1" =
      .error (.http .notImplementedError) :=
  c9_private_archive_shortcut repoPrivate "v1" rfl

/-- C2: the claim says an authenticated repository page request for a
resolvable repository with zero releases yields the plain-text page saying no
releases are available; on this code `_get_repo_releases_links` returns
`None` and `dispatch_repository` then iterates over `None`, dying with an
uncaught `TypeError` (an HTTP 500), shown here at a concrete repository with
an empty release list. -/
theorem c2_zero_releases_crashes :
    get_releases mapEmptyReleases "pkg" = .ok none ∧
      dispatch_repository "http://t@localhost:8000" mapEmptyReleases "pkg" =
        .error (.typeError "NoneType object is not iterable") := by
  constructor <;> rfl

/-- C3: the claim says an unknown release tag makes the download resolution
fail with NotFound; the code subscripts the release mapping directly, so a
missing tag raises an uncaught Python `KeyError` (an HTTP 500 at the server),
shown here at a repository whose only release tag is v1 while v9 is
requested. -/
theorem c3_unknown_tag_keyerror :
    dispatch_download_resolve (.token "t") mapOneRelease "pkg" "v9" =
      .error (.keyError "v9") := by
  rfl

/-- C4: the claim says every listing call translates an unclassified upstream
API error into BadRequest; `get_user_package_repositories` does, but the
privileged current-user listing path has no try/except, so the raw
`GitHubException` propagates out of `get_installable_repositories` — shown on
an environment whose search calls all raise. -/
theorem c4_raw_exception_on_privileged_path :
    get_installable_repositories envSearchError "alice" [] =
        .error (.rawGitHub "GitHubException: boom") ∧
      get_user_package_repositories envSearchError "bob" =
        .error (.http (.badRequest
          "Unable to get list of repositories from GitHub API")) := by
  constructor <;> rfl

/-- C8: a download request that resolves to an existing release none of whose
assets carries the expected fixed filename fails with NotFound, and the error
message mentions both the expected asset filename and the release's name. -/
theorem c8_missing_asset_notfound (auth : Auth)
    (repositories : List (String × Repo)) (repository_name release_name : String)
    (repo_releases : List (String × Release)) (wanted : Release)
    (hrel : get_releases repositories repository_name = .ok (some repo_releases))
    (hget : pyDictGet release_name repo_releases = some wanted)
    (hassets : ∀ a ∈ wanted.assets, a.name ≠ ASSET_FILENAME) :
    dispatch_download_resolve auth repositories repository_name release_name =
        .error (.http (.notFound (some (assetNotFoundMessage wanted)))) ∧
      strOccursIn ASSET_FILENAME (assetNotFoundMessage wanted) ∧
      strOccursIn wanted.name (assetNotFoundMessage wanted) := by
  refine ⟨?_, ?_, ?_⟩
  · have hfind : wanted.assets.find? (fun a => a.name == ASSET_FILENAME) = none :=
      List.find?_eq_none.mpr (fun a ha => by simp [hassets a ha])
    simp only [dispatch_download_resolve, hrel, hget,
      find_release_download_link, hfind]
  · refine ⟨("Asset \"").data,
      ("\" not found in release \"" ++ wanted.name ++ "\"").data, ?_⟩
    simp [assetNotFoundMessage, strData_append, List.append_assoc]
  · refine ⟨("Asset \"" ++ ASSET_FILENAME ++ "\" not found in release \"").data,
      ("\"").data, ?_⟩
    simp [assetNotFoundMessage, strData_append, List.append_assoc]

theorem c8_missing_asset_notfound_witness :
    dispatch_download_resolve (.userPass "alice" "pw") mapNoAsset "pkg" "v1" =
        .error (.http (.notFound (some (assetNotFoundMessage relNoAsset)))) ∧
      strOccursIn ASSET_FILENAME (assetNotFoundMessage relNoAsset) ∧
      strOccursIn relNoAsset.name (assetNotFoundMessage relNoAsset) :=
  c8_missing_asset_notfound (.userPass "alice" "pw") mapNoAsset "pkg" "v1"
    [("v1", relNoAsset)] relNoAsset rfl rfl (by decide)

/-- C7: a stored short name containing underscores also resolves through its
hyphenated variant; the alias map holds exactly the stored names and their
underscore-to-hyphen rewrites (the alias is one-directional), so a requested
name matching neither a stored name nor such a rewrite fails with NotFound. -/
theorem c7_alias_resolution (repositories : List (String × Repo))
    (stored requested : String)
    (_hund : strContains stored "_" = true) :
    ((pyDictHasKey stored repositories = true) →
      ∃ result, get_releases repositories (replaceUnderscores stored) =
        .ok result) ∧
    (get_releases repositories requested = .error (.http (.notFound none)) ↔
      repositories.any
        (fun p => p.1 == requested || replaceUnderscores p.1 == requested) =
        false) := by
  constructor
  · intro hkey
    have hany : repositories.any (fun p => p.1 == replaceUnderscores stored ||
        replaceUnderscores p.1 == replaceUnderscores stored) = true := by
      rw [pyDictHasKey, List.any_eq_true] at hkey
      obtain ⟨p, hp, hpe⟩ := hkey
      rw [List.any_eq_true]
      refine ⟨p, hp, ?_⟩
      have he : p.1 = stored := beq_iff_eq.mp hpe
      rw [he]
      simp
    have hhas : pyDictHasKey (replaceUnderscores stored)
        (repositoriesWithAliases repositories) = true := by
      rw [repositoriesWithAliases_hasKey]
      exact hany
    cases hd : pyDictGet (replaceUnderscores stored)
        (repositoriesWithAliases repositories) with
    | none =>
      rw [pyDictGet_none_iff] at hd
      rw [hd] at hhas
      exact absurd hhas (by simp)
    | some repository =>
      refine ⟨if (releasesDict repository.releases).isEmpty then none
        else some (releasesDict repository.releases), ?_⟩
      simp only [get_releases, hd]
  · constructor
    · intro h
      cases hd : pyDictGet requested (repositoriesWithAliases repositories) with
      | none =>
        rw [pyDictGet_none_iff, repositoriesWithAliases_hasKey] at hd
        exact hd
      | some repository =>
        rw [get_releases] at h
        rw [hd] at h
        exact absurd h (by simp)
    · intro h
      have hget : pyDictGet requested (repositoriesWithAliases repositories) = none := by
        rw [pyDictGet_none_iff, repositoriesWithAliases_hasKey]
        exact h
      rw [get_releases, hget]

theorem c7_alias_resolution_witness :
    (∃ result, get_releases mapUnd (replaceUnderscores "my_pkg") = .ok result) ∧
      get_releases mapUnd "nosuch" = .error (.http (.notFound none)) :=
  ⟨(c7_alias_resolution mapUnd "my_pkg" "nosuch" (by decide)).1 (by decide),
   ((c7_alias_resolution mapUnd "my_pkg" "nosuch" (by decide)).2).mpr (by decide)⟩

/-- C10: whenever the raw query string contains the text purge_cache anywhere
(also inside another parameter's name or value), the cache entry under the
fixed repositories key is deleted before credential extraction and upstream
authorization run, so a request with missing credentials or with credentials
the upstream rejects still leaves the entry evicted. -/
theorem c10_purge_cache (envOf : Auth → ApiEnv) (ids : List UserOrOrg)
    (cache : CacheStore) (request : Request)
    (h : strContains request.query_string "purge_cache" = true) :
    pyDictGet CACHE_KEY (purge_stage cache request) = none ∧
    (∀ e, get_authorization request = .error e →
      (wsgi_call envOf ids cache request).2 = pyDictDelete cache CACHE_KEY ∧
      pyDictGet CACHE_KEY (wsgi_call envOf ids cache request).2 = none) ∧
    (∀ auth e2, get_authorization request = .ok auth →
      authorize_github (envOf auth) = .error e2 →
      pyDictGet CACHE_KEY (wsgi_call envOf ids cache request).2 = none) := by
  have hpurge : purge_stage cache request = pyDictDelete cache CACHE_KEY := by
    rw [purge_stage, if_pos h]
  refine ⟨?_, ?_, ?_⟩
  · rw [hpurge]
    exact pyDictGet_delete cache CACHE_KEY
  · intro e he
    have hsnd : (wsgi_call envOf ids cache request).2 =
        pyDictDelete cache CACHE_KEY := by
      cases e with
      | http e0 => simp [wsgi_call, wsgi_pipeline, he, hpurge]
      | rawGitHub msg => simp [wsgi_call, wsgi_pipeline, he, hpurge]
      | typeError msg => simp [wsgi_call, wsgi_pipeline, he, hpurge]
      | keyError k2 => simp [wsgi_call, wsgi_pipeline, he, hpurge]
    refine ⟨hsnd, ?_⟩
    rw [hsnd]
    exact pyDictGet_delete cache CACHE_KEY
  · intro auth e2 hok hforb
    have hsnd : (wsgi_call envOf ids cache request).2 =
        pyDictDelete cache CACHE_KEY := by
      cases e2 with
      | http e0 => simp [wsgi_call, wsgi_pipeline, hok, hforb, hpurge]
      | rawGitHub msg => simp [wsgi_call, wsgi_pipeline, hok, hforb, hpurge]
      | typeError msg => simp [wsgi_call, wsgi_pipeline, hok, hforb, hpurge]
      | keyError k2 => simp [wsgi_call, wsgi_pipeline, hok, hforb, hpurge]
    rw [hsnd]
    exact pyDictGet_delete cache CACHE_KEY

theorem c10_purge_cache_witness :
    pyDictGet CACHE_KEY (purge_stage cachePrimed reqPurge) = none ∧
      pyDictGet CACHE_KEY
        ((wsgi_call (fun _ => envConflict) [] cachePrimed reqPurge)).2 = none := by
  have hmain := c10_purge_cache (fun _ => envConflict) [] cachePrimed reqPurge
    (by decide)
  exact ⟨hmain.1,
    (hmain.2.1 (.http (.unauthorized "Basic realm=\"Simple index\"")) rfl).2⟩

/-- C1: if the resolved repository listing contains two distinct repositories
sharing a short name, `get_installable_repositories` fails with the
ConflictingRepositories error instead of returning a mapping; the carried
conflict set lists, for each conflicting short name, exactly the colliding
repositories of that name, covers every short name borne by more than one
entry of the listing, and the rendered description text mentions the full
name of every colliding repository. -/
theorem c1_conflicting_repositories (env : ApiEnv) (login : String)
    (ids : List UserOrOrg) (result : List Repo) (r1 r2 : Repo)
    (hres : resolve_listing env login ids = .ok result)
    (h1 : r1 ∈ result) (h2 : r2 ∈ result) (hne : r1 ≠ r2)
    (hname : r1.name = r2.name) :
    ∃ cs, get_installable_repositories env login ids =
        .error (.http (.conflictingRepositories cs)) ∧
      cs ≠ [] ∧
      (∀ p ∈ cs, p.2 = result.filter (fun r => r.name == p.1)) ∧
      (∀ n : String, 1 < (result.filter (fun r => r.name == n)).length →
        ∃ g, (n, g) ∈ cs) ∧
      (∀ p ∈ cs, ∀ r ∈ p.2,
        strOccursIn r.full_name (conflicting_description cs)) := by
  have hconf : conflictsOf result ≠ [] := by
    have hcov := buildChecker_covers result r1 h1
    rw [List.any_eq_true] at hcov
    obtain ⟨p, hpmem, hpname⟩ := hcov
    have hpn : p.1 = r1.name := beq_iff_eq.mp hpname
    have hgrp := buildChecker_groups result p hpmem
    have hlen : 1 < p.2.length := by
      rw [hgrp]
      apply two_mem_one_lt_length _ r1 r2 _ _ hne
      · rw [List.mem_filter]
        exact ⟨h1, by rw [hpn]; exact beq_self_eq_true _⟩
      · rw [List.mem_filter]
        refine ⟨h2, ?_⟩
        rw [hpn, ← hname]
        exact beq_self_eq_true _
    have hpc : p ∈ conflictsOf result := by
      rw [conflictsOf, List.mem_filter]
      exact ⟨hpmem, decide_eq_true hlen⟩
    exact List.ne_nil_of_mem hpc
  cases hcs : conflictsOf result with
  | nil => exact absurd hcs hconf
  | cons c rest =>
    refine ⟨c :: rest, ?_, by simp, ?_, ?_, ?_⟩
    · simp only [get_installable_repositories, hres, hcs]
    · intro p hp
      have hpc : p ∈ conflictsOf result := by rw [hcs]; exact hp
      exact buildChecker_groups result p (List.mem_of_mem_filter hpc)
    · intro n hn
      have hne2 : result.filter (fun r => r.name == n) ≠ [] := by
        intro he
        rw [he] at hn
        simp at hn
      obtain ⟨r, hrf⟩ := List.exists_mem_of_ne_nil _ hne2
      have hrl : r ∈ result := (List.mem_filter.mp hrf).1
      have hrn : r.name = n := beq_iff_eq.mp (List.mem_filter.mp hrf).2
      have hcov := buildChecker_covers result r hrl
      rw [List.any_eq_true] at hcov
      obtain ⟨⟨p1, p2⟩, hpmem, hpname⟩ := hcov
      have hpn : p1 = r.name := beq_iff_eq.mp hpname
      have hgrp := buildChecker_groups result (p1, p2) hpmem
      have hpc : (p1, p2) ∈ conflictsOf result := by
        rw [conflictsOf, List.mem_filter]
        refine ⟨hpmem, ?_⟩
        have hlen : 1 < p2.length := by
          have := hgrp
          simp only at this
          rw [this, hpn, hrn]
          exact hn
        exact decide_eq_true hlen
      refine ⟨p2, ?_⟩
      rw [← hrn, ← hpn]
      rw [hcs] at hpc
      exact hpc
    · intro p hp r hr
      have hline : strOccursIn (conflict_line p)
          (conflicting_description (c :: rest)) := by
        have hmem : conflict_line p ∈ (c :: rest).map conflict_line :=
          List.mem_map_of_mem _ hp
        obtain ⟨u, v, huv⟩ :=
          strOccursIn_pyJoin "" ((c :: rest).map conflict_line) _ hmem
        refine ⟨("Duplicated repository names found:\n").data ++ u, v, ?_⟩
        simp only [conflicting_description, strData_append, List.append_assoc,
          ← huv]
      have hfn : strOccursIn r.full_name (conflict_line p) := by
        have hmem : r.full_name ∈ p.2.map Repo.full_name := by
          rw [List.mem_map]
          exact ⟨r, hr, rfl⟩
        obtain ⟨u, v, huv⟩ :=
          strOccursIn_pyJoin ", " (p.2.map Repo.full_name) _ hmem
        refine ⟨("- \"" ++ p.1 ++ "\" in: ").data ++ u, v ++ ("\n").data, ?_⟩
        simp only [conflict_line, strData_append, List.append_assoc, ← huv]
      exact strOccursIn_trans hfn hline

theorem c1_conflicting_repositories_witness :
    ∃ cs, get_installable_repositories envConflict "alice" [] =
        .error (.http (.conflictingRepositories cs)) ∧
      cs ≠ [] ∧
      (∀ p ∈ cs, p.2 = [repoA1, repoA2].filter (fun r => r.name == p.1)) ∧
      (∀ n : String, 1 < ([repoA1, repoA2].filter (fun r => r.name == n)).length →
        ∃ g, (n, g) ∈ cs) ∧
      (∀ p ∈ cs, ∀ r ∈ p.2,
        strOccursIn r.full_name (conflicting_description cs)) :=
  c1_conflicting_repositories envConflict "alice" [] [repoA1, repoA2]
    repoA1 repoA2 rfl (by simp) (by simp) (by decide) rfl

/-- C5: whenever `get_installable_repositories` succeeds, the keys of the
returned mapping are sorted ascending case-insensitively by short name. -/
theorem c5_mapping_sorted (env : ApiEnv) (login : String) (ids : List UserOrOrg)
    (m : List (String × Repo))
    (h : get_installable_repositories env login ids = .ok m) :
    (m.map Prod.fst).Pairwise
      (fun a b => listLexLe (pyLower a).data (pyLower b).data = true) := by
  cases hres : resolve_listing env login ids with
  | error e =>
    simp only [get_installable_repositories, hres] at h
    exact absurd h (by simp)
  | ok result =>
    cases hcs : conflictsOf result with
    | cons c rest =>
      simp only [get_installable_repositories, hres, hcs] at h
      exact absurd h (by simp)
    | nil =>
      simp only [get_installable_repositories, hres, hcs] at h
      have hm : pyDictBuild ((result.insertionSort repoLe).map
          (fun r => (r.name, r))) = m := Except.ok.inj h
      have hnodup : (result.map Repo.name).Nodup :=
        conflicts_nil_names_nodup result hcs
      have hperm := List.perm_insertionSort repoLe result
      have hnodup2 : ((result.insertionSort repoLe).map Repo.name).Nodup := by
        rw [List.Perm.nodup_iff (hperm.map Repo.name)]
        exact hnodup
      have hkeys : (((result.insertionSort repoLe).map
          (fun r => (r.name, r))).map Prod.fst) =
          (result.insertionSort repoLe).map Repo.name := by
        rw [List.map_map]
        rfl
      have hbuild : pyDictBuild ((result.insertionSort repoLe).map
          (fun r => (r.name, r))) =
          (result.insertionSort repoLe).map (fun r => (r.name, r)) := by
        apply pyDictBuild_eq_self
        rw [hkeys]
        exact hnodup2
      rw [← hm, hbuild, hkeys, List.pairwise_map]
      exact List.sorted_insertionSort repoLe result

theorem c5_mapping_sorted_witness :
    (([("alpha", repoAlpha), ("Zeta", repoZeta)].map Prod.fst).Pairwise
      (fun a b => listLexLe (pyLower a).data (pyLower b).data = true)) :=
  c5_mapping_sorted envSorted "alice" []
    [("alpha", repoAlpha), ("Zeta", repoZeta)] rfl

/-- C6 counterexample: with releases tagged v1 at time 1, v2 at time 2 and a
duplicate tag v1 at time 3, `_get_releases` keeps tag v1 at its
first-occurrence position while storing the latest release as its value, so
the stored releases' creation timestamps read 3 then 2 — the mapping is not
ordered ascending by release creation timestamp even though last-write-wins
deduplication holds, refuting the claim as stated at this input. -/
theorem c6_counterexample :
    pyDictGet "v1" (releasesDict dupTagReleases) = some relA3 ∧
      ¬ (((releasesDict dupTagReleases).map (fun p => p.2.created_at)).Pairwise
        (fun a b : Nat => a ≤ b)) := by
  constructor
  · rfl
  · decide

/-- C6 (amended): `_get_releases` sorts releases ascending by creation time,
then deduplicates by tag name with the last (hence latest-created) release
per tag winning and the key sitting at the first occurrence; consequently
(i) when tag names are pairwise distinct the mapping is ordered ascending by
creation timestamp, (ii) when creation timestamps are pairwise distinct the
mapping does not depend on the order the upstream API yields the releases,
and (iii) in general every tag of the mapping maps to a release of that tag
whose creation timestamp is maximal among that repository's releases with the
same tag. -/
theorem c6_release_ordering :
    (∀ l : List Release, (l.map Release.tag_name).Nodup →
      ((releasesDict l).map (fun p => p.2.created_at)).Pairwise
        (fun a b : Nat => a ≤ b)) ∧
    (∀ l1 l2 : List Release, l1.Perm l2 → (l1.map Release.created_at).Nodup →
      releasesDict l1 = releasesDict l2) ∧
    (∀ (l : List Release) (t : String) (r : Release),
      pyDictGet t (releasesDict l) = some r →
      r ∈ l ∧ r.tag_name = t ∧
        ∀ x ∈ l, x.tag_name = t → x.created_at ≤ r.created_at) := by
  refine ⟨?_, ?_, ?_⟩
  · intro l hnodup
    have hperm := List.perm_insertionSort releaseLe l
    have hnodup2 : ((l.insertionSort releaseLe).map Release.tag_name).Nodup := by
      rw [List.Perm.nodup_iff (hperm.map Release.tag_name)]
      exact hnodup
    have hkeys : (((l.insertionSort releaseLe).map
        (fun r => (r.tag_name, r))).map Prod.fst) =
        (l.insertionSort releaseLe).map Release.tag_name := by
      rw [List.map_map]
      rfl
    have hbuild : releasesDict l =
        (l.insertionSort releaseLe).map (fun r => (r.tag_name, r)) := by
      rw [releasesDict]
      apply pyDictBuild_eq_self
      rw [hkeys]
      exact hnodup2
    rw [hbuild, List.map_map, List.pairwise_map]
    exact List.sorted_insertionSort releaseLe l
  · intro l1 l2 hperm hnodup
    have hs1 := List.sorted_insertionSort releaseLe l1
    have hs2 := List.sorted_insertionSort releaseLe l2
    have hp : (l1.insertionSort releaseLe).Perm (l2.insertionSort releaseLe) :=
      ((List.perm_insertionSort releaseLe l1).trans hperm).trans
        (List.perm_insertionSort releaseLe l2).symm
    have hn : ((l1.insertionSort releaseLe).map Release.created_at).Nodup := by
      rw [List.Perm.nodup_iff
        ((List.perm_insertionSort releaseLe l1).map Release.created_at)]
      exact hnodup
    have heq := sorted_unique_by_created _ _ hp hs1 hs2 hn
    rw [releasesDict, releasesDict, heq]
  · intro l t r h
    rw [releasesDict, pyDictGet_build] at h
    have hsorted := List.sorted_insertionSort releaseLe l
    obtain ⟨hmem, htag, hle⟩ := lastVal_sorted_releases _ t r hsorted h
    refine ⟨(List.perm_insertionSort releaseLe l).mem_iff.mp hmem, htag, ?_⟩
    intro x hx hxt
    exact hle x ((List.perm_insertionSort releaseLe l).mem_iff.mpr hx) hxt

theorem c6_release_ordering_witness :
    ((releasesDict [relB2, relA1]).map (fun p => p.2.created_at)).Pairwise
        (fun a b : Nat => a ≤ b) ∧
      releasesDict [relB2, relA1] = releasesDict [relA1, relB2] ∧
      (relA3 ∈ dupTagReleases ∧ relA3.tag_name = "v1" ∧
        ∀ x ∈ dupTagReleases, x.tag_name = "v1" →
          x.created_at ≤ relA3.created_at) :=
  ⟨c6_release_ordering.1 [relB2, relA1] (by decide),
   c6_release_ordering.2.1 [relB2, relA1] [relA1, relB2] (by decide) (by decide),
   c6_release_ordering.2.2 dupTagReleases "v1" relA3 rfl⟩
